import Mathlib

/-!
Verification of the note-taking data-access core (`notetaker_db.py`).

The SQLAlchemy schema and the `NoteTakerTableModel` operations are shallowly
embedded: a database is a record of four append-only tables (row lists in
insertion order), timestamps are abstract clock ticks (`Nat`), attachment
bytes are `Nat` lists, and each fallible Python operation (file reads,
`KeyError`/`IndexError`, connection failure) returns an `Option`/`Except`.
The SQL `ORDER BY note.datetime` is modelled as a stable sort by the
`datetime` column, which preserves insertion order among ties.
-/

namespace Notetaker

/-- Row of the `user` table (`User` in `notetaker_db.py`): id, unique
username, PBKDF2 password hash. -/
structure User where
  user_id : Nat
  username : String
  pwhash : String
  deriving DecidableEq

/-- Row of the `note` table: id, creation timestamp, text, author username,
last-update timestamp. -/
structure Note where
  note_id : Nat
  datetime : Nat
  text : String
  user : String
  last_update : Nat
  deriving DecidableEq

/-- Row of the `attachment` table: id, file name, binary payload. -/
structure Attachment where
  attach_id : Nat
  name : String
  data : List Nat
  deriving DecidableEq

/-- Row of the `note_attachment` join table linking notes to attachments. -/
structure NoteAttachment where
  id : Nat
  note_id : Nat
  attach_id : Nat
  deriving DecidableEq

/-- A database state: the four tables the core reads or writes, each as a
list of rows in insertion order. -/
structure DB where
  users : List User
  notes : List Note
  attachments : List Attachment
  note_attachments : List NoteAttachment
  deriving DecidableEq

/-- A cell of the in-memory `datatable` snapshot: the Python rows mix
`datetime` objects and strings. -/
inductive Cell where
  | dt (t : Nat)
  | str (s : String)
  deriving DecidableEq

/-- The filesystem seen by `open(path, 'rb')`: `none` models an unreadable
path (`IOError`). -/
def FS := String → Option (List Nat)

/-- The comparison used by `order_by(Note.datetime)`. -/
def byCreation (m n : Note) : Prop := m.datetime ≤ n.datetime

instance decByCreation : DecidableRel byCreation := fun m n =>
  Nat.decLe m.datetime n.datetime

instance totalByCreation : IsTotal Note byCreation :=
  ⟨fun a b => Nat.le_total a.datetime b.datetime⟩

instance transByCreation : IsTrans Note byCreation :=
  ⟨fun _ _ _ h h2 => Nat.le_trans h h2⟩

/-- Model of `self.session.query(Note).order_by(Note.datetime).all()`: a
stable sort
of the `note` table by creation timestamp. -/
def sortByCreation (notes : List Note) : List Note :=
  notes.insertionSort byCreation

/-- Lookup in `attach_filename_dict`, the dict comprehension over
`query(Attachment.attach_id, Attachment.name)`: a Python dict keeps the
last binding for a duplicated key, hence the reversed `find?`.
A missing key raises `KeyError`, modelled by `none`. -/
def lookupAttachName (db : DB) (a : Nat) : Option String :=
  (db.attachments.reverse.find? (fun att => att.attach_id == a)).map
    (fun att => att.name)

/-- Model of `attach_dict[note_id]`: the attachment ids joined to a note, in
insertion order of the `note_attachment` table (`notes_attach_list`). -/
def attachIdsOf (db : DB) (nid : Nat) : List Nat :=
  (db.note_attachments.filter (fun na => na.note_id == nid)).map
    (fun na => na.attach_id)

/-- The generator inside `'\n'.join(attach_filename_dict[a] for a in ...)`:
collects the file names for the given attachment ids, propagating a
`KeyError` as `none`. -/
def joinNames (db : DB) : List Nat → Option (List String)
  | [] => some []
  | a :: rest =>
    match lookupAttachName db a with
    | none => none
    | some nm => (joinNames db rest).map (fun names => nm :: names)

/-- One iteration of the `for note in noteslist` loop in `refresh_data`:
the five-cell row appended to `self.datatable`, with `''` in the
attachment column when `note.note_id` is not a key of `attach_dict`. -/
def rowOfNote (db : DB) (note : Note) : Option (List Cell) :=
  if (attachIdsOf db note.note_id).isEmpty then
    some [Cell.dt note.datetime, Cell.str note.text, Cell.str note.user,
          Cell.dt note.last_update, Cell.str ""]
  else
    (joinNames db (attachIdsOf db note.note_id)).map (fun names =>
      [Cell.dt note.datetime, Cell.str note.text, Cell.str note.user,
       Cell.dt note.last_update,
       Cell.str (String.intercalate "\n" names)])

/-- The whole `for note in noteslist` loop: builds the rows in order. -/
def rowsOf (db : DB) : List Note → Option (List (List Cell))
  | [] => some []
  | n :: rest =>
    match rowOfNote db n with
    | none => none
    | some row => (rowsOf db rest).map (fun rows => row :: rows)

/-- Model of `NoteTakerTableModel.refresh_data`: re-queries all notes ordered by
creation time and rebuilds the `datatable` snapshot wholesale. -/
def refresh_data (db : DB) : Option (List (List Cell)) :=
  rowsOf db (sortByCreation db.notes)

/-- Spec-side description of a row's attachment field: the linked
attachment names, newline-joined, in join-row insertion order. -/
def specAttachField (db : DB) (nid : Nat) : String :=
  String.intercalate "\n"
    ((attachIdsOf db nid).map (fun a => (lookupAttachName db a).getD ""))

/-- Spec-side description of one snapshot row for a note. -/
def specRow (db : DB) (note : Note) : List Cell :=
  [Cell.dt note.datetime, Cell.str note.text, Cell.str note.user,
   Cell.dt note.last_update, Cell.str (specAttachField db note.note_id)]

/-- Referential integrity of the join table: every `note_attachment` row
points at an existing `attachment` row (the schema's intent; `refresh_data`
raises `KeyError` on states violating it). -/
def WFDB (db : DB) : Prop :=
  ∀ na ∈ db.note_attachments, ∃ att ∈ db.attachments,
    att.attach_id = na.attach_id

instance decWFDB (db : DB) : Decidable (WFDB db) := by
  unfold WFDB
  infer_instance

/-- The SQLite rowid handed to a freshly inserted note on
`session.commit()`: one more than the largest existing id. -/
def nextNoteId (db : DB) : Nat :=
  db.notes.foldr (fun n acc => max n.note_id acc) 0 + 1

/-- The `Note(datetime=datetime, text=text, user=user, last_update=datetime)`
object built by `commit_new_note`, with its post-commit id. -/
def newNote (db : DB) (now : Nat) (text user : String) : Note :=
  { note_id := nextNoteId db, datetime := now, text := text, user := user,
    last_update := now }

/-- The `for attach in attachments` loop body `open(attach, 'rb')`/`read()`:
reads every listed file, failing (`IOError`) if any path is unreadable. -/
def readAll (fs : FS) : List String → Option (List (List Nat))
  | [] => some []
  | p :: ps =>
    match fs p with
    | none => none
    | some bytes => (readAll fs ps).map (fun rest => bytes :: rest)

/-- Model of `NoteTakerTableModel.commit_new_note(text, user, attachments)`.

Faithful to the source: the note is added to the session and committed with
`created_at = last_updated_at = now`; when `attachments` is non-empty the
files are opened and read, but the `Attachment` objects are only collected
into the local `attach_list`, which is never `session.add`ed — and no
`NoteAttachment` row is constructed anywhere in the repository — so the
reads' results are discarded.  (Under Python 3 the `buffer(...)` call would
even raise `NameError`; the embedding takes the charitable Python 2 reading
in which the loop completes.)  An unreadable path aborts before
`session.commit()`, so the pending note insert is never persisted (`none`).
On success the method refreshes the snapshot and returns the status
string. -/
def commit_new_note (fs : FS) (now : Nat) (text user : String)
    (attachments : List String) (db : DB) :
    Option (DB × List (List Cell) × String) :=
  let note := newNote db now text user
  let reads : Option (List (List Nat)) :=
    if attachments.isEmpty then some [] else readAll fs attachments
  match reads with
  | none => none
  | some _ =>
    let db1 : DB := { db with notes := db.notes ++ [note] }
    (refresh_data db1).map (fun tbl =>
      (db1, tbl, "Note Committed Successfully"))

/-- Model of `NoteTakerTableModel.is_valid_user(user, passwd)`: iterates the rows of
`query(User.username, User.pwhash).filter(User.username == user)` and
returns `pbkdf2_sha256.verify(passwd, pwhash)` for the first one; if the
loop body never runs the method falls off the end and returns Python
`None`, modelled by `none`.  The PBKDF2 verifier is abstracted as the
function argument `verify`. -/
def is_valid_user (verify : String → String → Bool) (db : DB)
    (user passwd : String) : Option Bool :=
  match db.users.find? (fun u => u.username == user) with
  | some u => some (verify passwd u.pwhash)
  | none => none

/-- Model of `self.header`, the fixed CSV header tuple. -/
def header5 : List String :=
  ["Creation Date", "Text", "User", "Last Modified", "Attachments"]

/-- Model of `'\x7b\x7d'.format(value)` / `str(value)` applied to a cell:
datetimes render through their string form (abstract ticks here), strings
render as themselves. -/
def formatCell : Cell → String
  | Cell.dt t => toString t
  | Cell.str s => s

/-- The inner `for column in range(colcount)` loop of `export_data`:
`self.datatable[row][column]` raises `IndexError` when the row is shorter
than `colcount`. -/
def rowStrings (colcount : Nat) (row : List Cell) : Option (List String) :=
  if colcount ≤ row.length then
    some ((row.take colcount).map formatCell)
  else none

/-- The outer `for row in range(rowcount)` loop of `export_data`. -/
def exportRowsAux (colcount : Nat) :
    List (List Cell) → Option (List (List String))
  | [] => some []
  | row :: rest =>
    match rowStrings colcount row with
    | none => none
    | some r => (exportRowsAux colcount rest).map (fun rs => r :: rs)

/-- Model of `NoteTakerTableModel.export_data` up to CSV serialization: computes
`colcount = len(self.datatable[0])` — which raises `IndexError` on an
empty snapshot, modelled by `none` — then emits the header row followed by
the formatted cells of every snapshot row. -/
def export_data (header : List String) (tbl : List (List Cell)) :
    Option (List (List String)) :=
  match tbl with
  | [] => none
  | r0 :: _ =>
    (exportRowsAux r0.length tbl).map (fun rows => header :: rows)

/-- An ORM session handle bound to a database location; `isOpen` records
whether `close()` has been called on it. -/
structure Session where
  loc : String
  isOpen : Bool
  deriving DecidableEq

/-- The connection-relevant state of `NoteTakerTableModel`:
`self.session`, which starts out `None`. -/
structure ConnState where
  session : Option Session
  deriving DecidableEq

/-- Model of `self.session.close()`. -/
def closeSession (s : Session) : Session := { s with isOpen := false }

/-- Model of `NoteTakerTableModel.initiate_db_connection(db_type, db)`:
`if self.session: self.session.close()` runs unconditionally before the
`try` block, then the engine/session creation either succeeds (a fresh open
session is stored and the location string is returned) or raises, in which
case the bare `raise` propagates the error while `self.session` still
references the previously closed session.  `connectOk` models whether
`create_engine`/`create_all` succeed for a location; the success branch's
`refresh_data` call concerns only the snapshot, modelled separately. -/
def initiate_db_connection (connectOk : String → Bool) (st : ConnState)
    (loc : String) : ConnState × Except String String :=
  let st1 : ConnState := { session := st.session.map closeSession }
  if connectOk loc then
    ({ session := some { loc := loc, isOpen := true } }, Except.ok loc)
  else
    (st1, Except.error "ConnectionError")

/-- The facade state backing the table: the database behind
`self.session` plus the cached `self.datatable` snapshot. -/
structure Facade where
  db : DB
  datatable : List (List Cell)
  deriving DecidableEq

/-- The `refresh_data` call as a state transformer on the facade: re-queries the
database and replaces the snapshot. -/
def refreshState (m : Facade) : Option Facade :=
  (refresh_data m.db).map (fun tbl => { m with datatable := tbl })

/-- Model of `NoteTakerTableModel.rowCount`: `len(self.datatable)`; the method does
not assign to `self`, so the state component is returned unchanged. -/
def rowCount (m : Facade) : Facade × Nat :=
  (m, m.datatable.length)

/-- Model of `NoteTakerTableModel.columnCount`: `len(self.header)`. -/
def columnCount (m : Facade) : Facade × Nat :=
  (m, header5.length)

/-- Model of `NoteTakerTableModel.data` at `DisplayRole`:
`'\x7b\x7d'.format(self.datatable[i][j])`, with out-of-range indices
raising `IndexError` (`none`). -/
def dataCell (m : Facade) (i j : Nat) : Facade × Option String :=
  (m, (m.datatable[i]?.bind (fun row => row[j]?)).map formatCell)

/-- Concrete empty database used by witnesses. -/
def dbEmpty : DB :=
  { users := [], notes := [], attachments := [], note_attachments := [] }

/-- Concrete database holding the spec's `("hello world", "alice")` note
and no attachments. -/
def dbHello : DB :=
  { users := [],
    notes := [{ note_id := 1, datetime := 5, text := "hello world",
                user := "alice", last_update := 5 }],
    attachments := [], note_attachments := [] }

/-- Concrete database with one note linked to two attachments. -/
def dbTwoAtt : DB :=
  { users := [],
    notes := [{ note_id := 1, datetime := 5, text := "t", user := "u",
                last_update := 5 }],
    attachments := [{ attach_id := 1, name := "a.txt", data := [7] },
                    { attach_id := 2, name := "b.txt", data := [8] }],
    note_attachments := [{ id := 1, note_id := 1, attach_id := 1 },
                         { id := 2, note_id := 1, attach_id := 2 }] }

/-- Concrete filesystem for witnesses: exactly two readable files. -/
def fsW : FS := fun p =>
  if p = "a.txt" then some [1, 2]
  else if p = "b.txt" then some [3] else none

/-- Concrete PBKDF2 stand-in for witnesses: accepts exactly the password
"secret" against the stored hash "H1". -/
def verifyW : String → String → Bool := fun p h =>
  p == "secret" && h == "H1"

/-- Concrete database with a single user `alice` and no notes. -/
def dbUsers : DB :=
  { users := [{ user_id := 1, username := "alice", pwhash := "H1" }],
    notes := [], attachments := [], note_attachments := [] }

/-- Connection environment in which every location is unreachable. -/
def connFail : String → Bool := fun _ => false

/-- A facade state holding an open session on `old.db`. -/
def stOld : ConnState :=
  { session := some { loc := "old.db", isOpen := true } }

/-- The database commit_new_note actually produces from `dbEmpty` with two
attachment paths: the note alone, no attachment or join rows. -/
def dbAfterC1 : DB :=
  { users := [],
    notes := [{ note_id := 1, datetime := 7, text := "note",
                user := "alice", last_update := 7 }],
    attachments := [], note_attachments := [] }

/-- The snapshot row produced for that commit: empty attachment field. -/
def tblC1 : List (List Cell) :=
  [[Cell.dt 7, Cell.str "note", Cell.str "alice", Cell.dt 7, Cell.str ""]]

/-- The database after committing a second note onto `dbHello`. -/
def dbC5After : DB :=
  { users := [],
    notes := [{ note_id := 1, datetime := 5, text := "hello world",
                user := "alice", last_update := 5 },
              { note_id := 2, datetime := 9, text := "second",
                user := "bob", last_update := 9 }],
    attachments := [], note_attachments := [] }

/-- The snapshot after that second commit. -/
def tblC5 : List (List Cell) :=
  [[Cell.dt 5, Cell.str "hello world", Cell.str "alice", Cell.dt 5,
    Cell.str ""],
   [Cell.dt 9, Cell.str "second", Cell.str "bob", Cell.dt 9, Cell.str ""]]

/-- The database after committing an empty-text note onto `dbEmpty`. -/
def dbC8After : DB :=
  { users := [],
    notes := [{ note_id := 1, datetime := 3, text := "",
                user := "alice", last_update := 3 }],
    attachments := [], note_attachments := [] }

/-- The snapshot of `dbHello`. -/
def tblHello : List (List Cell) :=
  [[Cell.dt 5, Cell.str "hello world", Cell.str "alice", Cell.dt 5,
    Cell.str ""]]

/-- The snapshot of `dbTwoAtt`: one row, newline inside the attachment
cell. -/
def tblTwoAtt : List (List Cell) :=
  [[Cell.dt 5, Cell.str "t", Cell.str "u", Cell.dt 5,
    Cell.str "a.txt\nb.txt"]]

/-- Two facade states sharing a snapshot but caching different databases;
used to witness that the accessors never consult the database. -/
def mC9a : Facade := { db := dbHello, datatable := tblHello }

/-- See `mC9a`. -/
def mC9b : Facade := { db := dbEmpty, datatable := tblHello }

/-- The creation-date column of a snapshot row (its first cell). -/
def rowCreation : List Cell → Nat
  | Cell.dt t :: _ => t
  | _ => 0

/-- Characters that force a CSV field to be quoted under the default
`csv.writer` dialect: the delimiter, the quote char, and the line
terminator's characters. -/
def csvSpecial (c : Char) : Bool :=
  c == ',' || c == '"' || c == '\r' || c == '\n'

/-- CSV quote escaping: every `"` in a quoted field is doubled. -/
def escapeChars : List Char → List Char
  | [] => []
  | c :: cs =>
    if c = '"' then '"' :: '"' :: escapeChars cs
    else c :: escapeChars cs

/-- Model of the `csv.writer` QUOTE_MINIMAL field serialization. -/
def quoteField (s : String) : String :=
  if s.data.any csvSpecial then
    String.mk ('"' :: (escapeChars s.data ++ ['"']))
  else s

/-- One CSV record's fields, comma-separated. -/
def encodeFields : List String → List Char
  | [] => []
  | [f] => (quoteField f).data
  | f :: fs => (quoteField f).data ++ ',' :: encodeFields fs

/-- One CSV record including `csv.writer`'s `\r\n` terminator. -/
def encodeRecord (r : List String) : List Char :=
  encodeFields r ++ ['\r', '\n']

/-- The CSV text `export_data`/`csv.writer` produce for a list of rows. -/
def csvEncode (rows : List (List String)) : String :=
  String.mk (List.flatten (rows.map encodeRecord))

/-- CSV reader, quoted-field state: input starts just after an opening
quote; consumes up to and including the closing quote, undoing doubled
quotes.  Returns the field content and the remaining input. -/
def parseQuoted : List Char → Option (List Char × List Char)
  | [] => none
  | c :: rest =>
    if c = '"' then
      match rest with
      | [] => some ([], [])
      | c2 :: rest2 =>
        if c2 = '"' then
          match parseQuoted rest2 with
          | none => none
          | some (f, r) => some ('"' :: f, r)
        else some ([], c2 :: rest2)
    else
      match parseQuoted rest with
      | none => none
      | some (f, r) => some (c :: f, r)

/-- CSV reader, unquoted-field state: consumes until a special character
or the end of input. -/
def parseRaw : List Char → List Char × List Char
  | [] => ([], [])
  | c :: rest =>
    if csvSpecial c then ([], c :: rest)
    else
      let p := parseRaw rest
      (c :: p.1, p.2)

/-- CSV reader: one field, quoted or not. -/
def parseField (cs : List Char) : Option (String × List Char) :=
  match cs with
  | [] => some ("", [])
  | c :: rest =>
    if c = '"' then
      match parseQuoted rest with
      | none => none
      | some (f, r) => some (String.mk f, r)
    else
      let p := parseRaw (c :: rest)
      some (String.mk p.1, p.2)

/-- CSV reader: one record, i.e. comma-separated fields ended by `\r\n`
or the end of input.  Fuelled to keep the recursion structural. -/
def parseRecordAux : Nat → List Char → Option (List String × List Char)
  | 0, _ => none
  | fuel + 1, cs =>
    match parseField cs with
    | none => none
    | some (f, rest) =>
      match rest with
      | [] => some ([f], [])
      | c :: r =>
        if c = ',' then
          match parseRecordAux fuel r with
          | none => none
          | some (fs, r2) => some (f :: fs, r2)
        else if c = '\r' then
          match r with
          | [] => none
          | c2 :: r2 => if c2 = '\n' then some ([f], r2) else none
        else none

/-- CSV reader: all records until the end of input. -/
def parseFileAux : Nat → List Char → Option (List (List String))
  | 0, _ => none
  | fuel + 1, cs =>
    if cs.isEmpty then some []
    else
      match parseRecordAux (cs.length + 1) cs with
      | none => none
      | some (fields, rest) =>
        match parseFileAux fuel rest with
        | none => none
        | some rows => some (fields :: rows)

/-- Re-parse a CSV file into its records and fields. -/
def csvParse (s : String) : Option (List (List String)) :=
  parseFileAux (s.data.length + 1) s.data

example : refresh_data dbEmpty = some [] := by rfl

example : refresh_data dbHello =
    some [[Cell.dt 5, Cell.str "hello world", Cell.str "alice", Cell.dt 5,
           Cell.str ""]] := by rfl

example : refresh_data dbTwoAtt =
    some [[Cell.dt 5, Cell.str "t", Cell.str "u", Cell.dt 5,
           Cell.str "a.txt\nb.txt"]] := by rfl

theorem joinNames_eq (db : DB) (ids : List Nat) (names : List String)
    (h : joinNames db ids = some names) :
    names = ids.map (fun a => (lookupAttachName db a).getD "") := by
  induction ids generalizing names with
  | nil =>
    simp only [joinNames, Option.some.injEq] at h
    simp [← h]
  | cons a rest ih =>
    simp only [joinNames] at h
    cases hl : lookupAttachName db a with
    | none => rw [hl] at h; exact absurd h (by simp)
    | some nm =>
      rw [hl] at h
      cases hr : joinNames db rest with
      | none => rw [hr] at h; exact absurd h (by simp)
      | some tail =>
        rw [hr] at h
        simp only [Option.map_some', Option.some.injEq] at h
        simp [← h, hl, ih tail hr]

theorem joinNames_isSome (db : DB) (ids : List Nat)
    (h : ∀ a ∈ ids, (lookupAttachName db a).isSome) :
    (joinNames db ids).isSome := by
  induction ids with
  | nil => simp [joinNames]
  | cons a rest ih =>
    simp only [joinNames]
    cases hl : lookupAttachName db a with
    | none =>
      have := h a (List.mem_cons_self a rest)
      rw [hl] at this
      simp at this
    | some nm =>
      have hr := ih (fun b hb => h b (List.mem_cons_of_mem a hb))
      cases hj : joinNames db rest with
      | none => rw [hj] at hr; simp at hr
      | some tail => simp

theorem rowOfNote_eq (db : DB) (n : Note) (row : List Cell)
    (h : rowOfNote db n = some row) : row = specRow db n := by
  unfold rowOfNote at h
  by_cases he : (attachIdsOf db n.note_id).isEmpty
  · rw [if_pos he] at h
    have hids : attachIdsOf db n.note_id = [] := List.isEmpty_iff.mp he
    simp only [Option.some.injEq] at h
    simp only [← h, specRow, specAttachField, hids, List.map_nil]
    rfl
  · rw [if_neg he] at h
    cases hj : joinNames db (attachIdsOf db n.note_id) with
    | none => rw [hj] at h; exact absurd h (by simp)
    | some names =>
      rw [hj] at h
      simp only [Option.map_some', Option.some.injEq] at h
      simp [← h, specRow, specAttachField, joinNames_eq db _ _ hj]

theorem rowOfNote_isSome (db : DB) (n : Note)
    (h : ∀ a ∈ attachIdsOf db n.note_id, (lookupAttachName db a).isSome) :
    (rowOfNote db n).isSome := by
  unfold rowOfNote
  by_cases he : (attachIdsOf db n.note_id).isEmpty
  · simp [he]
  · have := joinNames_isSome db _ h
    cases hj : joinNames db (attachIdsOf db n.note_id) with
    | none => rw [hj] at this; simp at this
    | some names => simp [he, hj]

theorem rowsOf_eq (db : DB) (l : List Note) (tbl : List (List Cell))
    (h : rowsOf db l = some tbl) : tbl = l.map (specRow db) := by
  induction l generalizing tbl with
  | nil =>
    simp only [rowsOf, Option.some.injEq] at h
    simp [← h]
  | cons n rest ih =>
    simp only [rowsOf] at h
    cases hr : rowOfNote db n with
    | none => rw [hr] at h; exact absurd h (by simp)
    | some row =>
      rw [hr] at h
      cases hs : rowsOf db rest with
      | none => rw [hs] at h; exact absurd h (by simp)
      | some rows =>
        rw [hs] at h
        simp only [Option.map_some', Option.some.injEq] at h
        simp [← h, rowOfNote_eq db n row hr, ih rows hs]

theorem rowsOf_isSome (db : DB) (l : List Note)
    (h : ∀ n ∈ l, ∀ a ∈ attachIdsOf db n.note_id,
      (lookupAttachName db a).isSome) :
    (rowsOf db l).isSome := by
  induction l with
  | nil => simp [rowsOf]
  | cons n rest ih =>
    simp only [rowsOf]
    have hr := rowOfNote_isSome db n (h n (List.mem_cons_self n rest))
    cases hrow : rowOfNote db n with
    | none => rw [hrow] at hr; simp at hr
    | some row =>
      have hs := ih (fun m hm => h m (List.mem_cons_of_mem n hm))
      cases hrest : rowsOf db rest with
      | none => rw [hrest] at hs; simp at hs
      | some rows => simp

theorem wf_lookup_isSome (db : DB) (hwf : WFDB db) (nid : Nat) :
    ∀ a ∈ attachIdsOf db nid, (lookupAttachName db a).isSome := by
  intro a ha
  simp only [attachIdsOf, List.mem_map, List.mem_filter] at ha
  obtain ⟨na, ⟨hna, _⟩, rfl⟩ := ha
  obtain ⟨att, hatt, hid⟩ := hwf na hna
  simp only [lookupAttachName, Option.isSome_map']
  rw [List.find?_isSome]
  exact ⟨att, List.mem_reverse.mpr hatt, by simp [hid]⟩

theorem refresh_data_eq (db : DB) (tbl : List (List Cell))
    (h : refresh_data db = some tbl) :
    tbl = (sortByCreation db.notes).map (specRow db) :=
  rowsOf_eq db _ tbl h

theorem refresh_data_isSome (db : DB) (hwf : WFDB db) :
    (refresh_data db).isSome :=
  rowsOf_isSome db _ (fun n _ => wf_lookup_isSome db hwf n.note_id)

theorem specRow_length (db : DB) (n : Note) : (specRow db n).length = 5 :=
  rfl

theorem specRow_congr (db db' : DB)
    (hatt : db'.attachments = db.attachments)
    (hna : db'.note_attachments = db.note_attachments) (n : Note) :
    specRow db' n = specRow db n := by
  simp [specRow, specAttachField, attachIdsOf, lookupAttachName, hatt, hna]

theorem orderedInsert_append_last (a x : Note) (s : List Note)
    (hax : byCreation a x) :
    (s ++ [x]).orderedInsert byCreation a =
      s.orderedInsert byCreation a ++ [x] := by
  induction s with
  | nil => simp [List.orderedInsert, hax]
  | cons b bs ih =>
    simp only [List.cons_append, List.orderedInsert]
    by_cases h : byCreation a b
    · simp [h]
    · simp [h, ih]

theorem sortByCreation_append_last (l : List Note) (x : Note)
    (hx : ∀ y ∈ l, y.datetime ≤ x.datetime) :
    sortByCreation (l ++ [x]) = sortByCreation l ++ [x] := by
  induction l with
  | nil => simp [sortByCreation, List.insertionSort, List.orderedInsert]
  | cons a l' ih =>
    have ha : byCreation a x := hx a (List.mem_cons_self a l')
    have hih := ih (fun y hy => hx y (List.mem_cons_of_mem a hy))
    simp only [sortByCreation] at hih ⊢
    simp only [List.cons_append, List.insertionSort, List.append_eq]
    rw [hih]
    exact orderedInsert_append_last a x _ ha

theorem note_id_le_foldMax (l : List Note) (n : Note) (hn : n ∈ l) :
    n.note_id ≤ l.foldr (fun m acc => max m.note_id acc) 0 := by
  induction l with
  | nil => cases hn
  | cons a l' ih =>
    simp only [List.foldr]
    rcases List.mem_cons.mp hn with h | h
    · subst h; exact Nat.le_max_left _ _
    · exact Nat.le_trans (ih h) (Nat.le_max_right _ _)

theorem sortByCreation_perm (l : List Note) :
    List.Perm (sortByCreation l) l :=
  List.perm_insertionSort byCreation l

theorem sortByCreation_sorted (l : List Note) :
    List.Pairwise byCreation (sortByCreation l) :=
  List.sorted_insertionSort byCreation l

theorem parseQuoted_escape (s rest : List Char)
    (h : ∀ c, rest.head? = some c → c ≠ '"') :
    parseQuoted (escapeChars s ++ '"' :: rest) = some (s, rest) := by
  induction s with
  | nil =>
    simp only [escapeChars, List.nil_append]
    cases rest with
    | nil => rfl
    | cons c2 r2 =>
      have hc2 : c2 ≠ '"' := h c2 rfl
      simp [parseQuoted, hc2]
  | cons c cs ih =>
    by_cases hc : c = '"'
    · subst hc
      simp only [escapeChars, if_pos rfl, List.cons_append]
      simp [parseQuoted, ih]
    · simp only [escapeChars, if_neg hc, List.cons_append]
      unfold parseQuoted
      simp [hc, ih]

theorem parseRaw_safe (s rest : List Char)
    (hs : ∀ c ∈ s, csvSpecial c = false)
    (hr : ∀ c, rest.head? = some c → csvSpecial c = true) :
    parseRaw (s ++ rest) = (s, rest) := by
  induction s with
  | nil =>
    simp only [List.nil_append]
    cases rest with
    | nil => rfl
    | cons c r => simp [parseRaw, hr c rfl]
  | cons c cs ih =>
    have hc := hs c (List.mem_cons_self c cs)
    simp [parseRaw, hc,
      ih (fun x hx => hs x (List.mem_cons_of_mem c hx))]

theorem parseField_unquoted (l rest : List Char)
    (hall : ∀ c ∈ l, csvSpecial c = false)
    (hr : ∀ c, rest.head? = some c → (c = ',' ∨ c = '\r')) :
    parseField (l ++ rest) = some (String.mk l, rest) := by
  cases l with
  | nil =>
    simp only [List.nil_append]
    cases rest with
    | nil => rfl
    | cons c r =>
      have hcs : csvSpecial c = true := by
        rcases hr c rfl with h1 | h1 <;> subst h1 <;> rfl
      have hcq : c ≠ '"' := by
        rcases hr c rfl with h1 | h1 <;> subst h1 <;> decide
      simp [parseField, hcq, parseRaw, hcs]
  | cons c cs =>
    have hc := hall c (List.mem_cons_self c cs)
    have hcq : c ≠ '"' := by
      intro he
      subst he
      exact absurd hc (by decide)
    have hraw := parseRaw_safe (c :: cs) rest hall (fun x hx => by
      rcases hr x hx with h1 | h1 <;> subst h1 <;> rfl)
    simp only [List.cons_append] at hraw
    simp [parseField, hcq, hraw]

theorem parseField_quoteField (f : String) (rest : List Char)
    (hr : ∀ c, rest.head? = some c → (c = ',' ∨ c = '\r')) :
    parseField ((quoteField f).data ++ rest) = some (f, rest) := by
  have hnq : ∀ c, rest.head? = some c → c ≠ '"' := by
    intro c hc
    rcases hr c hc with h1 | h1 <;> subst h1 <;> decide
  unfold quoteField
  by_cases hq : f.data.any csvSpecial
  · rw [if_pos hq]
    show parseField (('"' :: (escapeChars f.data ++ ['"'])) ++ rest) =
      some (f, rest)
    have hsh : ('"' :: (escapeChars f.data ++ ['"'])) ++ rest =
        '"' :: (escapeChars f.data ++ '"' :: rest) := by
      simp
    rw [hsh]
    unfold parseField
    have hpq := parseQuoted_escape f.data rest hnq
    simp [hpq]
  · rw [if_neg hq]
    have hall : ∀ c ∈ f.data, csvSpecial c = false := by
      intro c hcm
      by_contra hcontra
      exact hq (List.any_eq_true.mpr ⟨c, hcm, by simpa using hcontra⟩)
    have := parseField_unquoted f.data rest hall hr
    simpa using this

theorem parseRecordAux_encode (fs : List String) :
    ∀ (f : String) (fuel : Nat) (rest : List Char),
    (f :: fs).length ≤ fuel →
    parseRecordAux fuel (encodeFields (f :: fs) ++ '\r' :: '\n' :: rest) =
      some (f :: fs, rest) := by
  induction fs with
  | nil =>
    intro f fuel rest hfuel
    cases fuel with
    | zero => simp at hfuel
    | succ fuel' =>
      simp only [encodeFields, parseRecordAux]
      rw [parseField_quoteField f ('\r' :: '\n' :: rest) (by
        intro c hc
        simp only [List.head?_cons, Option.some.injEq] at hc
        subst hc
        right
        rfl)]
      rfl
  | cons f2 fs2 ih =>
    intro f fuel rest hfuel
    cases fuel with
    | zero => simp at hfuel
    | succ fuel' =>
      simp only [encodeFields, List.append_assoc, List.cons_append,
        parseRecordAux]
      rw [parseField_quoteField f
        (',' :: (encodeFields (f2 :: fs2) ++ '\r' :: '\n' :: rest)) (by
          intro c hc
          simp only [List.head?_cons, Option.some.injEq] at hc
          subst hc
          left
          rfl)]
      have hih := ih f2 fuel' rest (by
        simp only [List.length_cons] at hfuel ⊢
        omega)
      simp [hih]

theorem encodeFields_length_ge (r : List String) :
    r.length ≤ (encodeFields r).length + 1 := by
  induction r with
  | nil => simp [encodeFields]
  | cons f fs ih =>
    cases fs with
    | nil => simp [encodeFields]
    | cons f2 fs2 =>
      simp only [encodeFields, List.length_append, List.length_cons,
        List.length_nil] at ih ⊢
      omega

theorem encodeRecord_length (r : List String) :
    (encodeRecord r).length = (encodeFields r).length + 2 := by
  simp [encodeRecord]

theorem rows_le_flatten_length (rows : List (List String)) :
    rows.length ≤ (List.flatten (rows.map encodeRecord)).length := by
  induction rows with
  | nil => simp
  | cons r rows' ih =>
    simp only [List.map_cons, List.flatten_cons, List.length_append,
      List.length_cons]
    have h2 := encodeRecord_length r
    omega

theorem parseFileAux_encode (rows : List (List String))
    (hne : ∀ r ∈ rows, r ≠ []) :
    ∀ fuel, rows.length < fuel →
    parseFileAux fuel (List.flatten (rows.map encodeRecord)) = some rows := by
  induction rows with
  | nil =>
    intro fuel hfuel
    cases fuel with
    | zero => omega
    | succ fuel' => rfl
  | cons r rows' ih =>
    intro fuel hfuel
    cases fuel with
    | zero => omega
    | succ fuel' =>
      obtain ⟨f, fs, hr⟩ : ∃ f fs, r = f :: fs := by
        cases hrc : r with
        | nil => exact absurd hrc (hne r (List.mem_cons_self r rows'))
        | cons f fs => exact ⟨f, fs, rfl⟩
      simp only [List.map_cons, List.flatten_cons]
      have hshape : encodeRecord r ++
          List.flatten (rows'.map encodeRecord) =
          encodeFields r ++ '\r' :: '\n' ::
            List.flatten (rows'.map encodeRecord) := by
        simp [encodeRecord]
      have hnonempty : encodeRecord r ++
          List.flatten (rows'.map encodeRecord) ≠ [] := by
        intro habs
        have := congrArg List.length habs
        simp only [List.length_append, List.length_nil,
          encodeRecord_length] at this
        omega
      have hlen : (f :: fs).length ≤
          (encodeRecord r ++ List.flatten (rows'.map encodeRecord)).length
            + 1 := by
        have h1 := encodeFields_length_ge r
        rw [← hr]
        simp only [List.length_append, encodeRecord_length]
        omega
      simp only [parseFileAux]
      rw [if_neg (by simpa [List.isEmpty_iff] using hnonempty)]
      rw [hshape] at hlen ⊢
      rw [hr] at hlen ⊢
      rw [parseRecordAux_encode fs f _ _ (by
        simpa [List.length_append] using hlen)]
      have hih := ih (fun x hx => hne x (List.mem_cons_of_mem r hx))
        fuel' (by simpa using Nat.lt_of_succ_lt_succ hfuel)
      simp [hih]

theorem csvParse_csvEncode (rows : List (List String))
    (hne : ∀ r ∈ rows, r ≠ []) :
    csvParse (csvEncode rows) = some rows := by
  show parseFileAux ((csvEncode rows).data.length + 1)
    (csvEncode rows).data = some rows
  have hdata : (csvEncode rows).data =
      List.flatten (rows.map encodeRecord) := rfl
  rw [hdata]
  exact parseFileAux_encode rows hne _
    (Nat.lt_succ_of_le (rows_le_flatten_length rows))

/-- **C1** (code bug): the claim says a commit with attachment paths
inserts one `Attachment` row and one `NoteAttachment` join row per path,
so that the next query shows both file names newline-joined.  Evaluating
the embedded code at the failing input — an empty database, two readable
attachment paths — shows the commit succeeds but persists neither an
`Attachment` nor a `NoteAttachment` row (the source only collects the
objects into the discarded local `attach_list`), and the queried row's
attachment field is the empty string, not `"a.txt\nb.txt"`. -/
theorem C1_commit_discards_attachments :
    commit_new_note fsW 7 "note" "alice" ["a.txt", "b.txt"] dbEmpty =
      some (dbAfterC1, tblC1, "Note Committed Successfully") ∧
    dbAfterC1.attachments = [] ∧
    dbAfterC1.note_attachments = [] ∧
    tblC1 = [[Cell.dt 7, Cell.str "note", Cell.str "alice", Cell.dt 7,
              Cell.str ""]] ∧
    fsW "a.txt" ≠ none ∧ fsW "b.txt" ≠ none := by
  refine ⟨by decide, rfl, rfl, rfl, by decide, by decide⟩

/-- **C2** (counterexample): with a valid open connection on `old.db` and
an unreachable new location, `initiate_db_connection` does propagate the
error, but `self.session` still holds the old handle — now closed — so
"no dangling handle is retained" and "any prior valid connection remains
usable" are both false of the code. -/
theorem C2_counterexample :
    (initiate_db_connection connFail stOld "missing/path").2 =
      Except.error "ConnectionError" ∧
    (initiate_db_connection connFail stOld "missing/path").1.session =
      some { loc := "old.db", isOpen := false } ∧
    (initiate_db_connection connFail stOld "missing/path").1.session ≠
      none ∧
    (initiate_db_connection connFail stOld "missing/path").1.session ≠
      some { loc := "old.db", isOpen := true } :=
  ⟨rfl, rfl, by decide, by decide⟩

/-- **C2** (amended): if `initiate` fails, the error is propagated to the
caller, but the prior connection has already been closed before the
attempt and its closed handle remains stored in `self.session`. -/
theorem C2_failed_initiate_keeps_closed_handle
    (connectOk : String → Bool) (st : ConnState) (loc : String)
    (s : Session) (hs : st.session = some s)
    (hfail : connectOk loc = false) :
    (initiate_db_connection connectOk st loc).2 =
      Except.error "ConnectionError" ∧
    (initiate_db_connection connectOk st loc).1.session =
      some (closeSession s) := by
  simp [initiate_db_connection, hfail, hs]

theorem C2_witness :
    stOld.session = some { loc := "old.db", isOpen := true } ∧
    connFail "missing/path" = false ∧
    ((initiate_db_connection connFail stOld "missing/path").2 =
        Except.error "ConnectionError" ∧
      (initiate_db_connection connFail stOld "missing/path").1.session =
        some (closeSession { loc := "old.db", isOpen := true })) :=
  ⟨rfl, rfl,
    C2_failed_initiate_keeps_closed_handle connFail stOld "missing/path"
      { loc := "old.db", isOpen := true } rfl rfl⟩

/-- **C3** (counterexample): the claim says unknown user and wrong
password both return false with no distinguishing signal.  On the code,
an unknown user makes the `for` loop body never run, so the method
returns Python `None` (`none`), while a wrong password returns `False`
(`some false`): the two outcomes are distinguishable values. -/
theorem C3_counterexample :
    is_valid_user verifyW dbUsers "bob" "secret" = none ∧
    is_valid_user verifyW dbUsers "alice" "wrong" = some false ∧
    is_valid_user verifyW dbUsers "bob" "secret" ≠ some false ∧
    is_valid_user verifyW dbUsers "bob" "secret" ≠
      is_valid_user verifyW dbUsers "alice" "wrong" := by decide

/-- **C3** (amended): with usernames unique (the schema's `unique=True`),
`is_valid_user` returns `True` iff a user named `u` exists and the
password verifies against that user's stored hash; when the user exists
but verification fails it returns `False`, and when no user named `u`
exists it returns `None` — a falsy value, but distinguishable from
`False`. -/
theorem C3_valid_user_trichotomy (verify : String → String → Bool)
    (db : DB) (u p : String)
    (huniq : List.Pairwise (fun a b => a.username ≠ b.username) db.users) :
    (is_valid_user verify db u p = some true ↔
      ∃ usr ∈ db.users, usr.username = u ∧ verify p usr.pwhash = true) ∧
    (is_valid_user verify db u p = none ↔
      ∀ usr ∈ db.users, usr.username ≠ u) ∧
    (is_valid_user verify db u p = some false ↔
      ∃ usr ∈ db.users, usr.username = u ∧ verify p usr.pwhash = false) := by
  cases hf : db.users.find? (fun x => x.username == u) with
  | none =>
    have hval : is_valid_user verify db u p = none := by
      unfold is_valid_user; rw [hf]
    have hnone : ∀ usr ∈ db.users, usr.username ≠ u := by
      intro usr hm
      have := List.find?_eq_none.mp hf usr hm
      simpa using this
    refine ⟨?_, ?_, ?_⟩
    · rw [hval]
      constructor
      · intro h; cases h
      · rintro ⟨usr, hm, hu, -⟩; exact absurd hu (hnone usr hm)
    · rw [hval]
      exact ⟨fun _ => hnone, fun _ => rfl⟩
    · rw [hval]
      constructor
      · intro h; cases h
      · rintro ⟨usr, hm, hu, -⟩; exact absurd hu (hnone usr hm)
  | some w =>
    have hval : is_valid_user verify db u p = some (verify p w.pwhash) := by
      unfold is_valid_user; rw [hf]
    have hw : w.username = u := by
      have := List.find?_some hf
      simpa using this
    have hwm : w ∈ db.users := List.mem_of_find?_eq_some hf
    have key : ∀ usr ∈ db.users, usr.username = u → usr = w := by
      intro usr hm hu
      by_contra hne
      have hne2 := (huniq.forall (fun _ _ hab => hab.symm)) hm hwm hne
      exact hne2 (hu.trans hw.symm)
    refine ⟨?_, ?_, ?_⟩
    · rw [hval]
      constructor
      · intro h
        exact ⟨w, hwm, hw, by simpa using h⟩
      · rintro ⟨usr, hm, hu, hv⟩
        have heq := key usr hm hu
        subst heq
        simp [hv]
    · rw [hval]
      constructor
      · intro h; cases h
      · intro hall; exact absurd hw (hall w hwm)
    · rw [hval]
      constructor
      · intro h
        exact ⟨w, hwm, hw, by simpa using h⟩
      · rintro ⟨usr, hm, hu, hv⟩
        have heq := key usr hm hu
        subst heq
        simp [hv]

theorem C3_witness :
    List.Pairwise (fun a b => a.username ≠ b.username) dbUsers.users ∧
    ((is_valid_user verifyW dbUsers "alice" "secret" = some true ↔
      ∃ usr ∈ dbUsers.users, usr.username = "alice" ∧
        verifyW "secret" usr.pwhash = true) ∧
     (is_valid_user verifyW dbUsers "alice" "secret" = none ↔
      ∀ usr ∈ dbUsers.users, usr.username ≠ "alice") ∧
     (is_valid_user verifyW dbUsers "alice" "secret" = some false ↔
      ∃ usr ∈ dbUsers.users, usr.username = "alice" ∧
        verifyW "secret" usr.pwhash = false)) :=
  ⟨by decide,
    C3_valid_user_trichotomy verifyW dbUsers "alice" "secret" (by decide)⟩

/-- **C4** (confirmed): on every referentially intact database state, the
refresh query succeeds and yields exactly one row per note — the note's
creation date, text, author, last-modified date, and its attachment names
newline-joined in join-row insertion order — sorted by creation time
ascending; a note with no attachments gets the empty string in the
attachment field. -/
theorem C4_refresh_query_shape (db : DB) (h : WFDB db) :
    ∃ tbl, refresh_data db = some tbl ∧
      tbl = (sortByCreation db.notes).map (specRow db) ∧
      List.Perm tbl (db.notes.map (specRow db)) ∧
      List.Pairwise (fun r s => rowCreation r ≤ rowCreation s) tbl ∧
      ∀ n ∈ db.notes, attachIdsOf db n.note_id = [] →
        specRow db n = [Cell.dt n.datetime, Cell.str n.text,
          Cell.str n.user, Cell.dt n.last_update, Cell.str ""] := by
  obtain ⟨tbl, htbl⟩ :=
    Option.isSome_iff_exists.mp (refresh_data_isSome db h)
  have heq := refresh_data_eq db tbl htbl
  refine ⟨tbl, htbl, heq, ?_, ?_, ?_⟩
  · rw [heq]
    exact (sortByCreation_perm db.notes).map _
  · rw [heq]
    exact (sortByCreation_sorted db.notes).map (specRow db)
      (fun a b hab => hab)
  · intro n _ hids
    simp only [specRow, specAttachField, hids, List.map_nil]
    rfl

theorem C4_witness :
    WFDB dbTwoAtt ∧
    (∃ tbl, refresh_data dbTwoAtt = some tbl ∧
      tbl = (sortByCreation dbTwoAtt.notes).map (specRow dbTwoAtt) ∧
      List.Perm tbl (dbTwoAtt.notes.map (specRow dbTwoAtt)) ∧
      List.Pairwise (fun r s => rowCreation r ≤ rowCreation s) tbl ∧
      ∀ n ∈ dbTwoAtt.notes, attachIdsOf dbTwoAtt n.note_id = [] →
        specRow dbTwoAtt n = [Cell.dt n.datetime, Cell.str n.text,
          Cell.str n.user, Cell.dt n.last_update, Cell.str ""]) :=
  ⟨by decide, C4_refresh_query_shape dbTwoAtt (by decide)⟩

/-- **C5** (confirmed): a successful commit only appends — the user,
attachment and join tables are untouched and the note table gains exactly
the new row at the end; the fresh note id occurs exactly once, and
(provided the clock did not run backwards) the subsequent query lists the
new note's row last, after all previously committed notes. -/
theorem C5_append_only_and_ordered (fs : FS) (now : Nat)
    (text user : String) (atts : List String) (db db' : DB)
    (tbl : List (List Cell)) (status : String)
    (hc : commit_new_note fs now text user atts db =
      some (db', tbl, status))
    (hmono : ∀ n ∈ db.notes, n.datetime ≤ now) :
    db'.users = db.users ∧
    db'.attachments = db.attachments ∧
    db'.note_attachments = db.note_attachments ∧
    db'.notes = db.notes ++ [newNote db now text user] ∧
    db'.notes.countP (fun n => n.note_id == nextNoteId db) = 1 ∧
    sortByCreation db'.notes =
      sortByCreation db.notes ++ [newNote db now text user] ∧
    tbl = (sortByCreation db.notes ++ [newNote db now text user]).map
      (specRow db') := by
  simp only [commit_new_note] at hc
  cases hreads : (if atts.isEmpty then some [] else readAll fs atts) with
  | none => rw [hreads] at hc; simp at hc
  | some bs =>
    rw [hreads] at hc
    simp only at hc
    cases href : refresh_data
        { db with notes := db.notes ++ [newNote db now text user] } with
    | none => rw [href] at hc; simp at hc
    | some t =>
      rw [href] at hc
      simp only [Option.map_some', Option.some.injEq,
        Prod.mk.injEq] at hc
      obtain ⟨hdb', ht, -⟩ := hc
      subst hdb'
      have hsort : sortByCreation (db.notes ++ [newNote db now text user]) =
          sortByCreation db.notes ++ [newNote db now text user] :=
        sortByCreation_append_last db.notes _ (fun y hy => hmono y hy)
      have hcount0 : db.notes.countP
          (fun n => n.note_id == nextNoteId db) = 0 := by
        rw [List.countP_eq_zero]
        intro n hn
        have hle := note_id_le_foldMax db.notes n hn
        have hlt : n.note_id < nextNoteId db :=
          Nat.lt_succ_of_le hle
        simp [Nat.ne_of_lt hlt]
      refine ⟨rfl, rfl, rfl, rfl, ?_, hsort, ?_⟩
      · simp [List.countP_append, hcount0, List.countP_cons, newNote]
      · rw [← ht, refresh_data_eq _ t href, hsort]

theorem C5_witness :
    commit_new_note fsW 9 "second" "bob" [] dbHello =
      some (dbC5After, tblC5, "Note Committed Successfully") ∧
    (∀ n ∈ dbHello.notes, n.datetime ≤ 9) ∧
    (dbC5After.users = dbHello.users ∧
     dbC5After.attachments = dbHello.attachments ∧
     dbC5After.note_attachments = dbHello.note_attachments ∧
     dbC5After.notes = dbHello.notes ++ [newNote dbHello 9 "second" "bob"] ∧
     dbC5After.notes.countP
       (fun n => n.note_id == nextNoteId dbHello) = 1 ∧
     sortByCreation dbC5After.notes =
       sortByCreation dbHello.notes ++ [newNote dbHello 9 "second" "bob"] ∧
     tblC5 = (sortByCreation dbHello.notes ++
       [newNote dbHello 9 "second" "bob"]).map (specRow dbC5After)) :=
  ⟨by decide, by decide,
    C5_append_only_and_ordered fsW 9 "second" "bob" [] dbHello dbC5After
      tblC5 "Note Committed Successfully" (by decide) (by decide)⟩

theorem exportRowsAux_all (n : Nat) (tbl : List (List Cell))
    (h : ∀ row ∈ tbl, row.length = n) :
    exportRowsAux n tbl = some (tbl.map (List.map formatCell)) := by
  induction tbl with
  | nil => rfl
  | cons row rest ih =>
    have hrow := h row (List.mem_cons_self row rest)
    have hr : rowStrings n row = some (row.map formatCell) := by
      unfold rowStrings
      rw [if_pos (by omega)]
      rw [← hrow, List.take_length]
    unfold exportRowsAux
    rw [hr]
    simp [ih (fun r hrm => h r (List.mem_cons_of_mem row hrm))]

theorem refresh_rows_length (db : DB) (tbl : List (List Cell))
    (h : refresh_data db = some tbl) : ∀ row ∈ tbl, row.length = 5 := by
  rw [refresh_data_eq db tbl h]
  intro row hrow
  obtain ⟨n, -, rfl⟩ := List.mem_map.mp hrow
  rfl

/-- **C6** (counterexample): as stated the claim quantifies over every
cached snapshot, but on the empty snapshot — reachable by refreshing a
connection to a zero-note database — `export_data` raises `IndexError`
(`len(self.datatable[0])`) instead of writing the header-only CSV. -/
theorem C6_counterexample :
    refresh_data dbUsers = some [] ∧
    export_data header5 [] = none ∧
    export_data header5 [] ≠ some [header5] := by decide

/-- **C6** (amended): for every nonempty cached snapshot produced by
`refresh_data`, `export_data` emits the fixed header
`Creation Date,Text,User,Last Modified,Attachments` followed by one row
per note, and re-parsing the emitted CSV text recovers exactly the same
row count and the same cell values (the parse undoes the CSV escaping) as
`rowCount`/`data` report at export time. -/
theorem C6_export_roundtrip (db : DB) (tbl : List (List Cell))
    (h1 : refresh_data db = some tbl) (h2 : tbl ≠ []) :
    ∃ rows, export_data header5 tbl = some rows ∧
      rows = header5 :: tbl.map (List.map formatCell) ∧
      rows.head? = some header5 ∧
      rows.length = (rowCount { db := db, datatable := tbl }).2 + 1 ∧
      csvParse (csvEncode rows) = some rows ∧
      (∀ i j v, (dataCell { db := db, datatable := tbl } i j).2 = some v →
        rows[i + 1]?.bind (fun r => r[j]?) = some v) := by
  have hlen := refresh_rows_length db tbl h1
  obtain ⟨r0, tbl', rfl⟩ : ∃ r0 tbl', tbl = r0 :: tbl' := by
    cases tbl with
    | nil => exact absurd rfl h2
    | cons a b => exact ⟨a, b, rfl⟩
  have hr0 : r0.length = 5 := hlen r0 (List.mem_cons_self r0 tbl')
  have hexp : export_data header5 (r0 :: tbl') =
      some (header5 :: (r0 :: tbl').map (List.map formatCell)) := by
    unfold export_data
    show Option.map (fun rows => header5 :: rows)
      (exportRowsAux r0.length (r0 :: tbl')) =
      some (header5 :: (r0 :: tbl').map (List.map formatCell))
    rw [hr0, exportRowsAux_all 5 (r0 :: tbl') hlen]
    rfl
  refine ⟨header5 :: (r0 :: tbl').map (List.map formatCell), hexp, rfl, rfl,
    ?_, ?_, ?_⟩
  · simp [rowCount]
  · apply csvParse_csvEncode
    intro r hr
    rcases List.mem_cons.mp hr with h | h
    · subst h
      decide
    · obtain ⟨row, hrowm, rfl⟩ := List.mem_map.mp h
      cases row with
      | nil =>
        have h5 := hlen [] hrowm
        simp at h5
      | cons a b => simp
  · intro i j v hv
    simp only [dataCell] at hv
    rw [Option.map_eq_some'] at hv
    obtain ⟨c, hc, hfc⟩ := hv
    rw [Option.bind_eq_some] at hc
    obtain ⟨row, hrowg, hcell⟩ := hc
    simp only [List.getElem?_cons_succ, List.getElem?_map, hrowg,
      Option.map_some', Option.some_bind]
    rw [hcell]
    simp [hfc]

theorem C6_witness :
    refresh_data dbTwoAtt = some tblTwoAtt ∧ tblTwoAtt ≠ [] ∧
    (∃ rows, export_data header5 tblTwoAtt = some rows ∧
      rows = header5 :: tblTwoAtt.map (List.map formatCell) ∧
      rows.head? = some header5 ∧
      rows.length =
        (rowCount { db := dbTwoAtt, datatable := tblTwoAtt }).2 + 1 ∧
      csvParse (csvEncode rows) = some rows ∧
      (∀ i j v,
        (dataCell { db := dbTwoAtt, datatable := tblTwoAtt } i j).2 =
          some v →
        rows[i + 1]?.bind (fun r => r[j]?) = some v)) :=
  ⟨by decide, by decide,
    C6_export_roundtrip dbTwoAtt tblTwoAtt (by decide) (by decide)⟩

/-- **C7** (confirmed): refreshing twice on the same connected state with
no intervening database writes leaves the snapshot exactly as after the
first refresh — the rebuild replaces the cache rather than accumulating
into it, and depends only on the database contents. -/
theorem C7_refresh_idempotent (m m' : Facade)
    (h : refreshState m = some m') : refreshState m' = some m' := by
  unfold refreshState at h ⊢
  cases hr : refresh_data m.db with
  | none => rw [hr] at h; simp at h
  | some tbl =>
    rw [hr] at h
    simp only [Option.map_some', Option.some.injEq] at h
    rw [← h]
    simp [hr]

theorem C7_witness :
    refreshState { db := dbHello, datatable := [] } =
      some { db := dbHello, datatable := tblHello } ∧
    refreshState { db := dbHello, datatable := tblHello } =
      some { db := dbHello, datatable := tblHello } :=
  ⟨by decide,
    C7_refresh_idempotent { db := dbHello, datatable := [] }
      { db := dbHello, datatable := tblHello } (by decide)⟩

/-- **C8** (counterexample): the claim says commits with empty text are
rejected.  The code performs no such check: committing `""` on an empty
database inserts a note row with empty text and returns the success
status string. -/
theorem C8_counterexample :
    commit_new_note fsW 3 "" "alice" [] dbEmpty =
      some (dbC8After, [[Cell.dt 3, Cell.str "", Cell.str "alice",
        Cell.dt 3, Cell.str ""]], "Note Committed Successfully") ∧
    dbC8After.notes ≠ [] := by decide

/-- **C8** (amended): `commit_new_note` does not validate its text
argument: on any referentially intact database, committing the empty
string inserts a note row whose text is empty and returns the success
status; rejecting blank notes is left entirely to the UI layer. -/
theorem C8_no_empty_text_guard (fs : FS) (now : Nat) (user : String)
    (db : DB) (h : WFDB db) :
    ∃ tbl, commit_new_note fs now "" user [] db =
      some ({ db with notes := db.notes ++ [newNote db now "" user] }, tbl,
        "Note Committed Successfully") := by
  have hwf1 : WFDB { db with notes := db.notes ++ [newNote db now "" user] } :=
    h
  obtain ⟨tbl, htbl⟩ :=
    Option.isSome_iff_exists.mp (refresh_data_isSome _ hwf1)
  refine ⟨tbl, ?_⟩
  simp only [commit_new_note, List.isEmpty_nil, if_true]
  simp [htbl]

theorem C8_witness :
    WFDB dbEmpty ∧
    (∃ tbl, commit_new_note fsW 3 "" "alice" [] dbEmpty =
      some ({ dbEmpty with
                notes := dbEmpty.notes ++ [newNote dbEmpty 3 "" "alice"] },
        tbl, "Note Committed Successfully")) :=
  ⟨by decide, C8_no_empty_text_guard fsW 3 "alice" dbEmpty (by decide)⟩

/-- **C9** (confirmed): `rowCount`, `columnCount` and `data` leave the
facade state — snapshot, connection and stored rows — unchanged, and
their results depend only on the cached snapshot: two states with equal
snapshots but entirely different databases answer identically, so no
database round-trip is involved. -/
theorem C9_accessors_read_only (m1 m2 : Facade)
    (h : m1.datatable = m2.datatable) :
    (rowCount m1).1 = m1 ∧ (columnCount m1).1 = m1 ∧
    (∀ i j, (dataCell m1 i j).1 = m1) ∧
    (rowCount m1).2 = (rowCount m2).2 ∧
    (columnCount m1).2 = (columnCount m2).2 ∧
    (∀ i j, (dataCell m1 i j).2 = (dataCell m2 i j).2) := by
  refine ⟨rfl, rfl, fun i j => rfl, ?_, rfl, fun i j => ?_⟩
  · simp [rowCount, h]
  · simp [dataCell, h]

theorem C9_witness :
    mC9a.datatable = mC9b.datatable ∧
    ((rowCount mC9a).1 = mC9a ∧ (columnCount mC9a).1 = mC9a ∧
     (∀ i j, (dataCell mC9a i j).1 = mC9a) ∧
     (rowCount mC9a).2 = (rowCount mC9b).2 ∧
     (columnCount mC9a).2 = (columnCount mC9b).2 ∧
     (∀ i j, (dataCell mC9a i j).2 = (dataCell mC9b i j).2)) :=
  ⟨rfl, C9_accessors_read_only mC9a mC9b rfl⟩

/-- **C10** (confirmed): a refreshed connection to a database with zero
notes caches the empty snapshot, and `export_data` on that snapshot fails
— `len(self.datatable[0])` raises `IndexError` before the header is ever
written — instead of producing a header-only CSV. -/
theorem C10_export_empty_snapshot_fails (db : DB) (h : db.notes = []) :
    refresh_data db = some [] ∧ export_data header5 [] = none := by
  constructor
  · unfold refresh_data
    rw [h]
    rfl
  · rfl

theorem C10_witness :
    dbUsers.notes = [] ∧
    (refresh_data dbUsers = some [] ∧ export_data header5 [] = none) :=
  ⟨rfl, C10_export_empty_snapshot_fails dbUsers rfl⟩

end Notetaker
